import Mathlib

/-!
Verification of the boostplus threadpool core (`src/third/include/atlas/threadpool/`)
and the pioneer session/request layer (`src/pioneer/net/request.h`).

The tree under `src/` holds the `thread_pool` facade (`pool.hpp`), the pool
adaptors (`pool_adaptors.hpp`) and the session manager (`request.h`).  The
facade delegates every operation to `detail::pool_core`, and the scheduling,
size and shutdown policies live in headers that are not part of the tree;
those parts are modelled from the specification, as marked on each definition.
-/

namespace Threadpool

/-- Modelled from the spec: `scheduling_policies.hpp` is not under `src/`.  A
scheduling policy is a task container with an insert operation and a
pop-next operation (spec section 4.2).  The container is a plain list because
the core guarantees single-threaded access under its lock. -/
structure SchedPolicy (τ : Type) where
  push : List τ → τ → List τ
  pop : List τ → Option (τ × List τ)

/-- Modelled from the spec: the FIFO scheduler inserts at the back and removes
from the front, so removal order is arrival order. -/
def fifo_scheduler (τ : Type) : SchedPolicy τ where
  push q t := q ++ [t]
  pop q :=
    match q with
    | [] => none
    | t :: rest => some (t, rest)

/-- Modelled from the spec: the LIFO scheduler removes the most recently
inserted task first.  The container is kept in reverse arrival order. -/
def lifo_scheduler (τ : Type) : SchedPolicy τ where
  push q t := t :: q
  pop q :=
    match q with
    | [] => none
    | t :: rest => some (t, rest)

/-- Modelled from the spec: a prioritized task carries an orderable priority
key (`prio_task_func`); `tid` is an identity used only to tell tasks apart. -/
structure prio_task where
  pri : Nat
  tid : Nat
deriving DecidableEq

/-- Modelled from the spec: removal for the priority scheduler.  The container
is kept in arrival order; the task removed is the highest-priority one, and
among equal priorities the earliest arrival wins (stable tie-break). -/
def prio_pop : List prio_task → Option (prio_task × List prio_task)
  | [] => none
  | t :: rest =>
    match prio_pop rest with
    | none => some (t, rest)
    | some (u, rest') => if t.pri < u.pri then some (u, t :: rest') else some (t, rest)

/-- Modelled from the spec: the priority scheduler inserts at the back (keeping
the container in arrival order) and pops via `prio_pop`. -/
def prio_scheduler : SchedPolicy prio_task where
  push q t := q ++ [t]
  pop := prio_pop

/-- Laws every scheduling policy of this pool satisfies: insertion adds exactly
the new task, and popping removes exactly one task that was in the container.
The three shipped schedulers are proved lawful below. -/
structure LawfulPolicy {τ : Type} (pol : SchedPolicy τ) : Prop where
  mem_push : ∀ q t x, x ∈ pol.push q t ↔ x ∈ q ∨ x = t
  len_push : ∀ q t, (pol.push q t).length = q.length + 1
  pop_sub : ∀ q t q', pol.pop q = some (t, q') → ∀ x, x ∈ q' → x ∈ q
  pop_mem : ∀ q t q', pol.pop q = some (t, q') → t ∈ q
  pop_len : ∀ q t q', pol.pop q = some (t, q') → q.length = q'.length + 1

/-- Modelled from the spec: `detail/pool_core.hpp` is not under `src/`.  The
core state is the scheduling queue, the `pending` and `active` counters, the
multiset of currently running tasks, the shutdown flag and the worker-thread
count (spec section 3, "Pool core").  `thread_pool` in `pool.hpp` merely
delegates to this state through a shared pointer. -/
structure pool_core (τ : Type) where
  queue : List τ
  pending : Nat
  active : Nat
  running : List τ
  shutdown : Bool
  workers : Nat
deriving DecidableEq

/-- Modelled from the spec: `pool_core::schedule` — under the lock, if the
shutdown flag is set return `false` without enqueueing; else insert the task
into the scheduling policy, increment `pending`, wake one worker and return
`true` (spec section 4.1).  `thread_pool::schedule` (pool.hpp line 108)
delegates here. -/
def pool_core.schedule {τ : Type} (pol : SchedPolicy τ) (s : pool_core τ) (t : τ) :
    Bool × pool_core τ :=
  if s.shutdown then (false, s)
  else (true, { s with queue := pol.push s.queue t, pending := s.pending + 1 })

/-- Modelled from the spec: `pool_core::clear` — under the lock, discard all
not-yet-started tasks and reset `pending` to 0; running tasks are untouched
(spec section 4.1).  `thread_pool::clear` (pool.hpp line 132) delegates here. -/
def pool_core.clear {τ : Type} (s : pool_core τ) : pool_core τ :=
  { s with queue := [], pending := 0 }

/-- Modelled from the spec: `pool_core::empty` — whether the scheduler holds no
task, "semantically `pending_tasks()==0`, implemented at least as cheaply"
(spec section 4.1); here the cheap form is an emptiness test on the container.
`thread_pool::empty` (pool.hpp line 140) delegates here. -/
def pool_core.empty {τ : Type} (s : pool_core τ) : Bool :=
  s.queue.isEmpty

/-- `thread_pool::pending_tasks` (pool.hpp line 126): the number of tasks ready
for execution, read from the core's counter. -/
def pool_core.pending_tasks {τ : Type} (s : pool_core τ) : Nat :=
  s.pending

/-- `thread_pool::active` (pool.hpp line 119): the number of tasks currently
executed, read from the core's counter. -/
def pool_core.active_tasks {τ : Type} (s : pool_core τ) : Nat :=
  s.active

/-- Observable events of one core.  Submissions record the task and whether it
was accepted; `start t` is a worker popping `t` and beginning execution;
`finish t` is that execution completing. -/
inductive PoolEvent (τ : Type) where
  | submitOk : τ → PoolEvent τ
  | submitFail : τ → PoolEvent τ
  | start : τ → PoolEvent τ
  | finish : τ → PoolEvent τ
  | cleared : PoolEvent τ
  | shutdownBegin : PoolEvent τ
deriving DecidableEq

/-- Modelled from the spec: the labelled transitions of one pool core under
its lock (spec sections 4.1 and 5).  Submission pushes into the policy or is
rejected once the shutdown flag is set; a worker start pops per the policy,
moves one unit of `pending` to `active` and records the task as running; a
finish retires a running task; `cleared` and `shutdownBegin` are the `clear`
and shutdown-initiation operations. -/
inductive Step {τ : Type} [DecidableEq τ] (pol : SchedPolicy τ) :
    pool_core τ → PoolEvent τ → pool_core τ → Prop where
  | submitOk : ∀ (s : pool_core τ) (t : τ), s.shutdown = false →
      Step pol s (PoolEvent.submitOk t)
        { s with queue := pol.push s.queue t, pending := s.pending + 1 }
  | submitFail : ∀ (s : pool_core τ) (t : τ), s.shutdown = true →
      Step pol s (PoolEvent.submitFail t) s
  | start : ∀ (s : pool_core τ) (t : τ) (q' : List τ), pol.pop s.queue = some (t, q') →
      Step pol s (PoolEvent.start t)
        { s with queue := q', pending := s.pending - 1,
                 active := s.active + 1, running := t :: s.running }
  | finish : ∀ (s : pool_core τ) (t : τ), t ∈ s.running →
      Step pol s (PoolEvent.finish t)
        { s with active := s.active - 1, running := s.running.erase t }
  | cleared : ∀ s : pool_core τ, Step pol s PoolEvent.cleared s.clear
  | shutdownBegin : ∀ s : pool_core τ,
      Step pol s PoolEvent.shutdownBegin { s with shutdown := true }

/-- A finite execution of the core: a list of events relating an initial state
to a final state through `Step`. -/
inductive Trace {τ : Type} [DecidableEq τ] (pol : SchedPolicy τ) :
    pool_core τ → List (PoolEvent τ) → pool_core τ → Prop where
  | nil : ∀ s : pool_core τ, Trace pol s [] s
  | cons : ∀ (s : pool_core τ) (e : PoolEvent τ) (s' : pool_core τ)
      (es : List (PoolEvent τ)) (s'' : pool_core τ),
      Step pol s e s' → Trace pol s' es s'' → Trace pol s (e :: es) s''

/-- The bookkeeping invariant of the core: `pending` equals the queue length
and `active` equals the number of running tasks (spec section 3). -/
def Inv {τ : Type} (s : pool_core τ) : Prop :=
  s.pending = s.queue.length ∧ s.active = s.running.length

/-- The threshold condition of `pool_core::wait`: the sum of active and pending
tasks is at or below the threshold (pool.hpp lines 144-150). -/
def waitCond {τ : Type} (s : pool_core τ) (n : Nat) : Bool :=
  decide (s.active + s.pending ≤ n)

/-- Modelled from the spec: `pool_core::wait(threshold)` — the condition
variable loop re-evaluates the threshold condition at every wakeup.  `f k` is
the core state observed at the `k`-th wakeup, `fuel` bounds the number of
wakeups examined, and the result is the wakeup index at which the wait
returns (`none` when the fuel runs out first; the termination theorem shows
sufficient fuel always exists under worker forward progress). -/
def wait {τ : Type} (f : Nat → pool_core τ) (n : Nat) : Nat → Nat → Option Nat
  | 0, _ => none
  | fuel + 1, i => if waitCond (f i) n then some i else wait f n fuel (i + 1)

/-- Modelled from the spec: `pool_core::wait(timestamp, threshold)` — the timed
wait re-arms the timed condition-variable wait against the remaining duration
on every wakeup and re-checks the threshold condition; when the deadline
elapses with the condition still false it returns `false`, not a failure.
`f k` is the state at the `k`-th wakeup and the first argument is the
remaining number of wakeups before the deadline. -/
def wait_timed {τ : Type} (f : Nat → pool_core τ) (n : Nat) : Nat → Nat → Bool
  | 0, i => waitCond (f i) n
  | r + 1, i => if waitCond (f i) n then true else wait_timed f n r (i + 1)

/-- The termination measure for worker progress: each worker start or finish
strictly decreases `2 * pending + active`. -/
def task_load {τ : Type} (s : pool_core τ) : Nat :=
  2 * s.pending + s.active

/-- A single worker transition: either starting a popped task or finishing a
running one. -/
def WorkerStep {τ : Type} [DecidableEq τ] (pol : SchedPolicy τ) (s s' : pool_core τ) : Prop :=
  ∃ t, Step pol s (PoolEvent.start t) s' ∨ Step pol s (PoolEvent.finish t) s'

/-- Forward progress by the workers: at every wakeup either the pool is fully
drained and the state is unchanged, or some worker has taken a step. -/
def FP {τ : Type} [DecidableEq τ] (pol : SchedPolicy τ) (f : Nat → pool_core τ) : Prop :=
  ∀ k, (task_load (f k) = 0 ∧ f (k + 1) = f k) ∨ WorkerStep pol (f k) (f (k + 1))

/-- The `_shutdown_controller` member of `thread_pool` (pool.hpp lines 166-167)
is a `std::shared_ptr<void>` whose deleter runs `pool_core::shutdown`; all
copies of a pool share it.  Its state is the strong reference count together
with the number of times the shutdown policy has run.  Modelled from the
spec: the reference-count semantics of `std::shared_ptr` are library
behavior not under `src/` — releasing a reference decrements the count and
the deleter runs exactly when the count drops from one to zero. -/
structure shutdown_controller where
  use_count : Nat
  shutdown_runs : Nat
deriving DecidableEq

/-- Releasing one reference of the shutdown controller: when it is the last
reference the one-shot deleter fires the shutdown policy, otherwise the count
is merely decremented. -/
def release (g : shutdown_controller) : shutdown_controller :=
  if g.use_count = 1 then { use_count := 0, shutdown_runs := g.shutdown_runs + 1 }
  else { use_count := g.use_count - 1, shutdown_runs := g.shutdown_runs }

/-- Outcome of invoking one task: it either returns normally or raises a
failure carrying a value of type `ε`. -/
inductive task_outcome (ε : Type) where
  | ok : task_outcome ε
  | thrown : ε → task_outcome ε
deriving DecidableEq

/-- Modelled from the spec: one iteration of the worker loop (spec section
4.1) — pop the next task per the policy, update the counters, invoke the task
outside the lock.  Any failure the task raises is caught inside the loop and
discarded (pool.hpp documents "A task must not throw an exception." and
"Exceptions are ignored."): both outcome branches perform exactly the same
bookkeeping and the failure value is dropped.  A start immediately followed
by the matching finish is collapsed into one function, so `active` is net
unchanged and only the popped task leaves `pending`. -/
def worker_iteration {τ ε : Type} (pol : SchedPolicy τ) (run : τ → task_outcome ε)
    (s : pool_core τ) : pool_core τ :=
  match pol.pop s.queue with
  | none => s
  | some (t, q') =>
    match run t with
    | task_outcome.ok => { s with queue := q', pending := s.pending - 1 }
    | task_outcome.thrown _ => { s with queue := q', pending := s.pending - 1 }

/-- Repeatedly popping a scheduling-policy container: the removal order it
yields, bounded by `fuel` pops. -/
def drainPol {τ : Type} (pol : SchedPolicy τ) : Nat → List τ → List τ
  | 0, _ => []
  | fuel + 1, q =>
    match pol.pop q with
    | none => []
    | some (t, q') => t :: drainPol pol fuel q'

/-- A `std::shared_ptr<Runnable>`: the pointee together with the strong
reference count of its control block.  The object is destroyed only when the
count reaches zero. -/
structure shared_ptr (α : Type) where
  obj : α
  use_count : Nat

/-- The task built by `std::bind(&Runnable::run, obj)` in
`boostplus::threadpool::schedule` (pool_adaptors.hpp line 35): the bound
callable holds its own copy of the shared pointer. -/
structure bound_run_task (α : Type) where
  owner : shared_ptr α

/-- Binding `&Runnable::run` to `obj` copies the shared pointer into the task,
raising the strong count by one for as long as the task object exists. -/
def bindRun {α : Type} (obj : shared_ptr α) : bound_run_task α :=
  { owner := { obj := obj.obj, use_count := obj.use_count + 1 } }

/-- Executing the bound task invokes `run()` on the owned object. -/
def run_bound {α ε : Type} (run : α → task_outcome ε) (t : bound_run_task α) : task_outcome ε :=
  run t.owner.obj

/-- `schedule(Pool&, const std::shared_ptr<Runnable>&)` (pool_adaptors.hpp
lines 33-36): `return pool->schedule(bind(&Runnable::run, obj));`. -/
def schedule_runnable {α : Type} (pol : SchedPolicy (bound_run_task α))
    (s : pool_core (bound_run_task α)) (obj : shared_ptr α) :
    Bool × pool_core (bound_run_task α) :=
  pool_core.schedule pol s (bindRun obj)

end Threadpool

namespace PioneerNet

/-- `boost::uuids::uuid`: an ordered, equality-comparable cluster-wide
identifier; its 128-bit structure is irrelevant here, so it is a natural
number. -/
abbrev uuid := Nat

/-- An inbound wire message (`atlas::rpc::message`): the session id it carries
plus its remaining payload, which this layer treats as opaque. -/
structure rpc_message where
  sid : uuid
  payload : String
deriving DecidableEq

/-- Modelled from the spec: `atlas::rpc::message::get_session_id(data, len)` is
part of the atlas rpc layer, which is not under `src/`; the spec says the
session/request layer "extracts a cluster-wide session identifier from
inbound messages", so extraction reads the session id the message carries. -/
def get_session_id (m : rpc_message) : uuid :=
  m.sid

/-- `pioneer::net::request` (request.h lines 61-83): the copied message bytes,
the source address, and the session id it was built under.  The weak
back-reference to the session adds nothing observable to the claims and is
omitted. -/
structure request where
  message : rpc_message
  source_ip_port : String
  sid : uuid
deriving DecidableEq

/-- `pioneer::net::session` (request.h lines 87-112): the immutable id and the
`request_ptr _request`, null until `build_request` runs. -/
structure session where
  id : uuid
  req : Option request
deriving DecidableEq

/-- `session::request()` (request.h line 102). -/
def session.request (s : session) : Option request :=
  s.req

/-- `session::build_request` (request.h lines 98-100): resets `_request` to a
freshly built request for this message; the fresh pointer is never null. -/
def session.build_request (s : session) (message : rpc_message) (source_ip_port : String) :
    session :=
  { s with req := some { message := message, source_ip_port := source_ip_port, sid := s.id } }

/-- Lookup in the `std::map<uuid, session_ptr>` registry, modelled as an
association list. -/
def lookupSession : List (uuid × session) → uuid → Option session
  | [], _ => none
  | (k, v) :: rest, sid => if k = sid then some v else lookupSession rest sid

/-- Storing a session under its id: replaces the existing entry or inserts a
new one.  In the C++ code, mutating a found session through its shared
pointer updates the very object the map points to; with value semantics that
aliasing becomes an explicit store-back of the updated session. -/
def storeSession : List (uuid × session) → uuid → session → List (uuid × session)
  | [], sid, s => [(sid, s)]
  | (k, v) :: rest, sid, s =>
    if k = sid then (sid, s) :: rest else (k, v) :: storeSession rest sid s

/-- `pioneer::net::session_manager` (request.h lines 122-203): the process-wide
registry `_sessions`, a map from session id to session. -/
structure session_manager where
  sessions : List (uuid × session)

/-- `session_manager::build_request` (request.h lines 136-165): extract the
session id from the message; under the lock, look the session up and, when
absent, create a session with exactly the pass-in id and insert it; then
build the session's request and return it. -/
def session_manager.build_request (m : session_manager) (source_ip_port : String)
    (data : rpc_message) : Option request × session_manager :=
  let sid := get_session_id data
  let s : session :=
    match lookupSession m.sessions sid with
    | some s => s
    | none => { id := sid, req := none }
  let s' := s.build_request data source_ip_port
  (s'.request, { sessions := storeSession m.sessions sid s' })

/-- `session_manager::get` (request.h lines 167-177): the session registered
under the id, or nothing. -/
def session_manager.get (m : session_manager) (sid : uuid) : Option session :=
  lookupSession m.sessions sid

end PioneerNet

namespace Threadpool

theorem fifo_lawful (τ : Type) : LawfulPolicy (fifo_scheduler τ) where
  mem_push q t x := by simp [fifo_scheduler]
  len_push q t := by simp [fifo_scheduler]
  pop_sub q t q' h x hx := by
    cases q with
    | nil => simp [fifo_scheduler] at h
    | cons a as =>
      simp [fifo_scheduler] at h
      obtain ⟨rfl, rfl⟩ := h
      exact List.mem_cons_of_mem _ hx
  pop_mem q t q' h := by
    cases q with
    | nil => simp [fifo_scheduler] at h
    | cons a as =>
      simp [fifo_scheduler] at h
      obtain ⟨rfl, rfl⟩ := h
      exact List.mem_cons_self _ _
  pop_len q t q' h := by
    cases q with
    | nil => simp [fifo_scheduler] at h
    | cons a as =>
      simp [fifo_scheduler] at h
      obtain ⟨rfl, rfl⟩ := h
      simp

theorem lifo_lawful (τ : Type) : LawfulPolicy (lifo_scheduler τ) where
  mem_push q t x := by
    simp [lifo_scheduler, List.mem_cons]
    tauto
  len_push q t := by simp [lifo_scheduler]
  pop_sub q t q' h x hx := by
    cases q with
    | nil => simp [lifo_scheduler] at h
    | cons a as =>
      simp [lifo_scheduler] at h
      obtain ⟨rfl, rfl⟩ := h
      exact List.mem_cons_of_mem _ hx
  pop_mem q t q' h := by
    cases q with
    | nil => simp [lifo_scheduler] at h
    | cons a as =>
      simp [lifo_scheduler] at h
      obtain ⟨rfl, rfl⟩ := h
      exact List.mem_cons_self _ _
  pop_len q t q' h := by
    cases q with
    | nil => simp [lifo_scheduler] at h
    | cons a as =>
      simp [lifo_scheduler] at h
      obtain ⟨rfl, rfl⟩ := h
      simp

theorem prio_pop_ne_none (t : prio_task) (rest : List prio_task) :
    prio_pop (t :: rest) ≠ none := by
  simp only [prio_pop]
  cases prio_pop rest with
  | none => simp
  | some ur =>
    obtain ⟨u, rest'⟩ := ur
    by_cases h : t.pri < u.pri <;> simp [h]

theorem prio_pop_spec : ∀ (q : List prio_task) (u : prio_task) (q' : List prio_task),
    prio_pop q = some (u, q') →
    (∀ v ∈ q, v.pri ≤ u.pri) ∧
    ∃ l₁ l₂, q = l₁ ++ u :: l₂ ∧ q' = l₁ ++ l₂ ∧ ∀ v ∈ l₁, v.pri < u.pri := by
  intro q
  induction q with
  | nil => intro u q' h; simp [prio_pop] at h
  | cons t rest ih =>
    intro u q' h
    simp only [prio_pop] at h
    cases hrest : prio_pop rest with
    | none =>
      rw [hrest] at h
      have hnil : rest = [] := by
        cases rest with
        | nil => rfl
        | cons a as => exact absurd hrest (prio_pop_ne_none a as)
      simp at h
      obtain ⟨rfl, rfl⟩ := h
      subst hnil
      exact ⟨by simp, [], [], by simp, by simp, by simp⟩
    | some vr =>
      obtain ⟨v, rest'⟩ := vr
      rw [hrest] at h
      obtain ⟨hb, l₁, l₂, hq, hq', hlt⟩ := ih v rest' hrest
      by_cases hpri : t.pri < v.pri
      · simp [hpri] at h
        obtain ⟨rfl, rfl⟩ := h
        refine ⟨?_, t :: l₁, l₂, by simp [hq], by simp [hq'], ?_⟩
        · intro w hw
          rcases List.mem_cons.mp hw with rfl | hw'
          · exact Nat.le_of_lt hpri
          · exact hb w hw'
        · intro w hw
          rcases List.mem_cons.mp hw with rfl | hw'
          · exact hpri
          · exact hlt w hw'
      · simp [hpri] at h
        obtain ⟨rfl, rfl⟩ := h
        refine ⟨?_, [], rest, by simp, by simp, by simp⟩
        intro w hw
        rcases List.mem_cons.mp hw with rfl | hw'
        · exact Nat.le_refl _
        · exact Nat.le_trans (hb w hw') (Nat.le_of_not_lt hpri)

theorem prio_lawful : LawfulPolicy prio_scheduler where
  mem_push q t x := by simp [prio_scheduler]
  len_push q t := by simp [prio_scheduler]
  pop_sub q t q' h x hx := by
    obtain ⟨-, l₁, l₂, hq, hq', -⟩ := prio_pop_spec q t q' h
    subst hq; subst hq'
    rcases List.mem_append.mp hx with h1 | h2
    · exact List.mem_append.mpr (Or.inl h1)
    · exact List.mem_append.mpr (Or.inr (List.mem_cons_of_mem _ h2))
  pop_mem q t q' h := by
    obtain ⟨-, l₁, l₂, hq, -, -⟩ := prio_pop_spec q t q' h
    subst hq
    exact List.mem_append.mpr (Or.inr (List.mem_cons_self _ _))
  pop_len q t q' h := by
    obtain ⟨-, l₁, l₂, hq, hq', -⟩ := prio_pop_spec q t q' h
    subst hq; subst hq'
    simp
    omega

theorem drain_fifo {τ : Type} : ∀ q : List τ, drainPol (fifo_scheduler τ) q.length q = q := by
  intro q
  induction q with
  | nil => rfl
  | cons t rest ih =>
    rw [List.length_cons,
      show drainPol (fifo_scheduler τ) (rest.length + 1) (t :: rest)
        = t :: drainPol (fifo_scheduler τ) rest.length rest from rfl, ih]

theorem drain_lifo {τ : Type} : ∀ q : List τ, drainPol (lifo_scheduler τ) q.length q = q := by
  intro q
  induction q with
  | nil => rfl
  | cons t rest ih =>
    rw [List.length_cons,
      show drainPol (lifo_scheduler τ) (rest.length + 1) (t :: rest)
        = t :: drainPol (lifo_scheduler τ) rest.length rest from rfl, ih]

end Threadpool

namespace Threadpool

theorem step_shutdown_persists {τ : Type} [DecidableEq τ] {pol : SchedPolicy τ}
    {s : pool_core τ} {e : PoolEvent τ} {s' : pool_core τ}
    (h : Step pol s e s') (hs : s.shutdown = true) : s'.shutdown = true := by
  cases h <;> simp_all [pool_core.clear]

theorem trace_shutdown_persists {τ : Type} [DecidableEq τ] {pol : SchedPolicy τ} :
    ∀ {s : pool_core τ} {es : List (PoolEvent τ)} {s' : pool_core τ},
    Trace pol s es s' → s.shutdown = true → s'.shutdown = true := by
  intro s es s' h
  induction h with
  | nil => exact fun hs => hs
  | cons s e s₁ es s'' hstep htr ih => exact fun hs => ih (step_shutdown_persists hstep hs)

theorem trace_no_submitOk {τ : Type} [DecidableEq τ] {pol : SchedPolicy τ} :
    ∀ {s : pool_core τ} {es : List (PoolEvent τ)} {s' : pool_core τ},
    Trace pol s es s' → s.shutdown = true → ∀ t, PoolEvent.submitOk t ∉ es := by
  intro s es s' h
  induction h with
  | nil => intro _ t; simp
  | cons s e s₁ es s'' hstep htr ih =>
    intro hs t hmem
    rcases List.mem_cons.mp hmem with he | hmem'
    · subst he
      cases hstep
      simp_all
    · exact ih (step_shutdown_persists hstep hs) t hmem'

theorem trace_no_start {τ : Type} [DecidableEq τ] {pol : SchedPolicy τ}
    (hp : LawfulPolicy pol) :
    ∀ {s : pool_core τ} {es : List (PoolEvent τ)} {s' : pool_core τ},
    Trace pol s es s' → ∀ t, t ∉ s.queue → PoolEvent.submitOk t ∉ es →
      PoolEvent.start t ∉ es := by
  intro s es s' h
  induction h with
  | nil => intro t _ _; simp
  | cons s e s₁ es s'' hstep htr ih =>
    intro t hq hns hmem
    rcases List.mem_cons.mp hmem with he | hmem'
    · subst he
      cases hstep with
      | start t2 q' hpop => exact hq (hp.pop_mem _ _ _ hpop)
    · have hns' : PoolEvent.submitOk t ∉ es := fun h2 => hns (List.mem_cons_of_mem _ h2)
      have hq' : t ∉ s₁.queue := by
        cases hstep with
        | submitOk t' hsd =>
          intro h3
          rcases (hp.mem_push _ _ _).mp h3 with h4 | h4
          · exact hq h4
          · exact hns (by simp [h4])
        | submitFail t' hsd => exact hq
        | start t' q' hpop => exact fun h3 => hq (hp.pop_sub _ _ _ hpop _ h3)
        | finish t' hrun => exact hq
        | cleared => simp [pool_core.clear]
        | shutdownBegin => exact hq
      exact ih t hq' hns' hmem'

theorem step_preserves_inv {τ : Type} [DecidableEq τ] {pol : SchedPolicy τ}
    (hp : LawfulPolicy pol) {s : pool_core τ} {e : PoolEvent τ} {s' : pool_core τ}
    (h : Step pol s e s') (hi : Inv s) : Inv s' := by
  obtain ⟨h1, h2⟩ := hi
  cases h with
  | submitOk t hsd => exact ⟨by simp [hp.len_push, h1], h2⟩
  | submitFail t hsd => exact ⟨h1, h2⟩
  | start t q' hpop =>
    have := hp.pop_len _ _ _ hpop
    exact ⟨by simp; omega, by simp [h2]⟩
  | finish t hrun =>
    have := List.length_erase_of_mem hrun
    have hpos : 0 < s.running.length := List.length_pos.mpr (List.ne_nil_of_mem hrun)
    exact ⟨h1, by simp [this]; omega⟩
  | cleared => exact ⟨rfl, h2⟩
  | shutdownBegin => exact ⟨h1, h2⟩

theorem trace_preserves_inv {τ : Type} [DecidableEq τ] {pol : SchedPolicy τ}
    (hp : LawfulPolicy pol) :
    ∀ {s : pool_core τ} {es : List (PoolEvent τ)} {s' : pool_core τ},
    Trace pol s es s' → Inv s → Inv s' := by
  intro s es s' h
  induction h with
  | nil => exact fun hi => hi
  | cons s e s₁ es s'' hstep htr ih => exact fun hi => ih (step_preserves_inv hp hstep hi)

theorem workerStep_load {τ : Type} [DecidableEq τ] {pol : SchedPolicy τ}
    (hp : LawfulPolicy pol) {s s' : pool_core τ}
    (h : WorkerStep pol s s') (hi : Inv s) : Inv s' ∧ task_load s' + 1 = task_load s := by
  obtain ⟨t, h | h⟩ := h
  · refine ⟨step_preserves_inv hp h hi, ?_⟩
    cases h with
    | start t2 q' hpop =>
      have hl := hp.pop_len _ _ _ hpop
      obtain ⟨h1, h2⟩ := hi
      simp [task_load]
      omega
  · refine ⟨step_preserves_inv hp h hi, ?_⟩
    cases h with
    | finish t2 hrun =>
      have hpos : 0 < s.running.length := List.length_pos.mpr (List.ne_nil_of_mem hrun)
      obtain ⟨h1, h2⟩ := hi
      simp [task_load]
      omega

end Threadpool

namespace Threadpool

theorem fp_load_bound {τ : Type} [DecidableEq τ] {pol : SchedPolicy τ}
    (hp : LawfulPolicy pol) {f : Nat → pool_core τ}
    (h0 : Inv (f 0)) (hfp : FP pol f) :
    ∀ k, Inv (f k) ∧ (task_load (f k) = 0 ∨ task_load (f k) + k ≤ task_load (f 0)) := by
  intro k
  induction k with
  | zero => exact ⟨h0, Or.inr (by omega)⟩
  | succ k ih =>
    obtain ⟨hik, hk⟩ := ih
    rcases hfp k with ⟨hz, heq⟩ | hws
    · rw [heq]
      exact ⟨hik, Or.inl hz⟩
    · obtain ⟨hik', hdec⟩ := workerStep_load hp hws hik
      refine ⟨hik', ?_⟩
      rcases hk with hz | hle
      · omega
      · right; omega

theorem fp_drained {τ : Type} [DecidableEq τ] {pol : SchedPolicy τ}
    (hp : LawfulPolicy pol) {f : Nat → pool_core τ}
    (h0 : Inv (f 0)) (hfp : FP pol f) :
    task_load (f (task_load (f 0))) = 0 := by
  obtain ⟨-, h⟩ := fp_load_bound hp h0 hfp (task_load (f 0))
  omega

theorem wait_sound {τ : Type} (f : Nat → pool_core τ) (n : Nat) :
    ∀ fuel i j, wait f n fuel i = some j → waitCond (f j) n = true := by
  intro fuel
  induction fuel with
  | zero => intro i j h; simp [wait] at h
  | succ fuel ih =>
    intro i j h
    unfold wait at h
    split at h
    · cases h
      assumption
    · exact ih _ _ h

theorem wait_finds {τ : Type} (f : Nat → pool_core τ) (n : Nat) :
    ∀ fuel i k, k < fuel → waitCond (f (i + k)) n = true →
      ∃ j, wait f n fuel i = some j := by
  intro fuel
  induction fuel with
  | zero => intro i k hk _; omega
  | succ fuel ih =>
    intro i k hk hc
    by_cases h : waitCond (f i) n = true
    · exact ⟨i, by simp [wait, h]⟩
    · have hk0 : k ≠ 0 := by
        rintro rfl
        rw [Nat.add_zero] at hc
        exact h hc
      obtain ⟨k', rfl⟩ := Nat.exists_eq_succ_of_ne_zero hk0
      have hc' : waitCond (f (i + 1 + k')) n = true := by
        rw [show i + 1 + k' = i + (k' + 1) by omega]
        exact hc
      obtain ⟨j, hj⟩ := ih (i + 1) k' (by omega) hc'
      refine ⟨j, ?_⟩
      unfold wait
      simp [h, hj]

theorem wait_terminates {τ : Type} [DecidableEq τ] {pol : SchedPolicy τ}
    (hp : LawfulPolicy pol) {f : Nat → pool_core τ}
    (h0 : Inv (f 0)) (hfp : FP pol f) (n : Nat) :
    ∃ j, wait f n (task_load (f 0) + 1) 0 = some j := by
  have hz := fp_drained hp h0 hfp
  have hc : waitCond (f (0 + task_load (f 0))) n = true := by
    rw [Nat.zero_add]
    simp only [waitCond, task_load] at hz ⊢
    simp only [decide_eq_true_eq]
    omega
  exact wait_finds f n (task_load (f 0) + 1) 0 (task_load (f 0)) (by omega) hc

theorem wait_timed_true_iff {τ : Type} (f : Nat → pool_core τ) (n : Nat) :
    ∀ d i, wait_timed f n d i = true ↔ ∃ k, k ≤ d ∧ waitCond (f (i + k)) n = true := by
  intro d
  induction d with
  | zero =>
    intro i
    constructor
    · intro h
      exact ⟨0, Nat.le_refl 0, by simpa [wait_timed] using h⟩
    · rintro ⟨k, hk, hc⟩
      have hk0 : k = 0 := by omega
      subst hk0
      simpa [wait_timed] using hc
  | succ d ih =>
    intro i
    by_cases h : waitCond (f i) n = true
    · constructor
      · intro _
        exact ⟨0, by omega, by simpa using h⟩
      · intro _
        unfold wait_timed
        simp [h]
    · constructor
      · intro hw
        unfold wait_timed at hw
        rw [if_neg h] at hw
        obtain ⟨k, hk, hc⟩ := (ih (i + 1)).mp hw
        exact ⟨k + 1, by omega, by rwa [show i + (k + 1) = i + 1 + k by omega]⟩
      · rintro ⟨k, hk, hc⟩
        unfold wait_timed
        rw [if_neg h]
        cases k with
        | zero =>
          rw [Nat.add_zero] at hc
          exact absurd hc h
        | succ k' =>
          exact (ih (i + 1)).mpr ⟨k', by omega, by rwa [show i + 1 + k' = i + (k' + 1) by omega]⟩

theorem release_iterate_lt : ∀ (k n fired : Nat), k < n →
    release^[k] { use_count := n, shutdown_runs := fired } =
      { use_count := n - k, shutdown_runs := fired } := by
  intro k
  induction k with
  | zero => intro n fired _; simp
  | succ k ih =>
    intro n fired h
    rw [Function.iterate_succ_apply]
    have hn : n ≠ 1 := by omega
    have hr : release { use_count := n, shutdown_runs := fired } =
        { use_count := n - 1, shutdown_runs := fired } := by
      simp [release, hn]
    rw [hr, ih (n - 1) fired (by omega)]
    have : n - 1 - k = n - (k + 1) := by omega
    rw [this]

theorem release_iterate_zero (fired : Nat) :
    ∀ j : Nat, release^[j] { use_count := 0, shutdown_runs := fired } =
      { use_count := 0, shutdown_runs := fired } := by
  intro j
  induction j with
  | zero => simp
  | succ j ih =>
    rw [Function.iterate_succ_apply]
    have hr : release { use_count := 0, shutdown_runs := fired } =
        { use_count := 0, shutdown_runs := fired } := by
      simp [release]
    rw [hr, ih]

theorem release_iterate_last (n : Nat) (h : 1 ≤ n) :
    release^[n] { use_count := n, shutdown_runs := 0 } =
      { use_count := 0, shutdown_runs := 1 } := by
  obtain ⟨m, rfl⟩ : ∃ m, n = m + 1 := ⟨n - 1, by omega⟩
  rw [Function.iterate_succ_apply']
  rcases Nat.eq_zero_or_pos m with rfl | hm
  · simp [release]
  · rw [release_iterate_lt m (m + 1) 0 (by omega)]
    have hh : m + 1 - m = 1 := by omega
    rw [hh]
    simp [release]

end Threadpool

namespace Threadpool

/-- C1: for every task t, if shutdown has begun the schedule/submit call
returns false without enqueueing t, and t is never executed (no start event
for t can occur in any subsequent trace, t not being in the queue); if
shutdown has not begun, schedule inserts t into the scheduling policy,
increments pending by one, and returns true. -/
theorem C1_schedule_shutdown_semantics {τ : Type} [DecidableEq τ] (pol : SchedPolicy τ)
    (hp : LawfulPolicy pol) (s : pool_core τ) (t : τ) :
    (s.shutdown = true →
      (pool_core.schedule pol s t).1 = false ∧
      (pool_core.schedule pol s t).2 = s ∧
      ∀ es s', Trace pol s es s' → t ∉ s.queue → PoolEvent.start t ∉ es) ∧
    (s.shutdown = false →
      (pool_core.schedule pol s t).1 = true ∧
      (pool_core.schedule pol s t).2.queue = pol.push s.queue t ∧
      (pool_core.schedule pol s t).2.pending = s.pending + 1) := by
  constructor
  · intro hs
    refine ⟨by simp [pool_core.schedule, hs], by simp [pool_core.schedule, hs], ?_⟩
    intro es s' htr hq
    exact trace_no_start hp htr t hq (trace_no_submitOk htr hs t)
  · intro hs
    exact ⟨by simp [pool_core.schedule, hs], by simp [pool_core.schedule, hs],
      by simp [pool_core.schedule, hs]⟩

/-- Witness for C1: a concrete shut-down pool rejects a submission and a
concrete live pool accepts it. -/
theorem C1_witness :
    (pool_core.schedule (fifo_scheduler Nat)
      { queue := [], pending := 0, active := 0, running := [],
        shutdown := true, workers := 1 } 7).1 = false ∧
    (pool_core.schedule (fifo_scheduler Nat)
      { queue := [], pending := 0, active := 0, running := [],
        shutdown := false, workers := 1 } 7).1 = true :=
  ⟨((C1_schedule_shutdown_semantics (fifo_scheduler Nat) (fifo_lawful Nat)
      { queue := [], pending := 0, active := 0, running := [],
        shutdown := true, workers := 1 } 7).1 rfl).1,
   ((C1_schedule_shutdown_semantics (fifo_scheduler Nat) (fifo_lawful Nat)
      { queue := [], pending := 0, active := 0, running := [],
        shutdown := false, workers := 1 } 7).2 rfl).1⟩

/-- C2: for a core whose shutdown controller starts with n live references, the
shutdown policy has run zero times while any reference remains and exactly
once from the moment the last reference is released onward — never twice and
never skipped, whatever order the releases interleave in. -/
theorem C2_shutdown_policy_once (n : Nat) (h : 1 ≤ n) :
    (∀ k, k < n →
      (release^[k] { use_count := n, shutdown_runs := 0 }).shutdown_runs = 0) ∧
    (∀ k, n ≤ k →
      (release^[k] { use_count := n, shutdown_runs := 0 }).shutdown_runs = 1) := by
  constructor
  · intro k hk
    rw [release_iterate_lt k n 0 hk]
  · intro k hk
    have hsplit : k = (k - n) + n := by omega
    rw [hsplit, Function.iterate_add_apply, release_iterate_last n h,
      release_iterate_zero 1 (k - n)]

/-- Witness for C2 at three concrete release counts of a three-handle pool. -/
theorem C2_witness :
    (release^[2] { use_count := 3, shutdown_runs := 0 }).shutdown_runs = 0 ∧
    (release^[3] { use_count := 3, shutdown_runs := 0 }).shutdown_runs = 1 ∧
    (release^[5] { use_count := 3, shutdown_runs := 0 }).shutdown_runs = 1 :=
  ⟨(C2_shutdown_policy_once 3 (by decide)).1 2 (by decide),
   (C2_shutdown_policy_once 3 (by decide)).2 3 (by decide),
   (C2_shutdown_policy_once 3 (by decide)).2 5 (by decide)⟩

/-- C3: wait(n) returns only at a wakeup where active + pending ≤ n holds; in
particular wait(0) returns only once both counters are zero; and given
forward progress by the workers the wait terminates — fuel task_load + 1
always suffices, with no timeout involved. -/
theorem C3_wait_spec {τ : Type} [DecidableEq τ] (pol : SchedPolicy τ) (hp : LawfulPolicy pol)
    (f : Nat → pool_core τ) (n fuel i j : Nat) (h0 : Inv (f 0)) (hfp : FP pol f) :
    (wait f n fuel i = some j →
      (f j).active_tasks + (f j).pending_tasks ≤ n) ∧
    (wait f 0 fuel i = some j →
      (f j).active_tasks = 0 ∧ (f j).pending_tasks = 0) ∧
    (∃ k, wait f n (task_load (f 0) + 1) 0 = some k) := by
  refine ⟨?_, ?_, wait_terminates hp h0 hfp n⟩
  · intro h
    have hc := wait_sound f n fuel i j h
    simp only [waitCond, decide_eq_true_eq] at hc
    simpa [pool_core.active_tasks, pool_core.pending_tasks] using hc
  · intro h
    have hc := wait_sound f 0 fuel i j h
    simp only [waitCond, decide_eq_true_eq] at hc
    constructor
    · simp only [pool_core.active_tasks]
      omega
    · simp only [pool_core.pending_tasks]
      omega

/-- Witness for C3: on a drained two-worker pool the wait terminates. -/
theorem C3_witness :
    ∃ k, wait
      (fun _ =>
        ({ queue := [], pending := 0, active := 0, running := [],
           shutdown := false, workers := 2 } : pool_core Nat))
      0
      (task_load
        ({ queue := [], pending := 0, active := 0, running := [],
           shutdown := false, workers := 2 } : pool_core Nat) + 1)
      0 = some k :=
  (C3_wait_spec (fifo_scheduler Nat) (fifo_lawful Nat)
    (fun _ =>
      ({ queue := [], pending := 0, active := 0, running := [],
         shutdown := false, workers := 2 } : pool_core Nat))
    0 1 0 0 (by exact ⟨rfl, rfl⟩) (by intro k; exact Or.inl ⟨rfl, rfl⟩)).2.2

/-- C4: the timed wait returns false — a value, not a raised failure — when
the deadline elapses with the threshold condition still violated at every
wakeup, and returns true when the condition is met at some wakeup within the
deadline; the loop re-arms against the remaining duration on every wakeup. -/
theorem C4_wait_timed_spec {τ : Type} (f : Nat → pool_core τ) (d n : Nat) :
    ((∀ i, i ≤ d → n < (f i).active_tasks + (f i).pending_tasks) →
      wait_timed f n d 0 = false) ∧
    ((∃ i, i ≤ d ∧ (f i).active_tasks + (f i).pending_tasks ≤ n) →
      wait_timed f n d 0 = true) := by
  constructor
  · intro h
    cases hb : wait_timed f n d 0 with
    | false => rfl
    | true =>
      exfalso
      obtain ⟨k, hk, hc⟩ := (wait_timed_true_iff f n d 0).mp hb
      simp only [Nat.zero_add, waitCond, decide_eq_true_eq] at hc
      have hgt := h k hk
      simp only [pool_core.active_tasks, pool_core.pending_tasks] at hgt
      omega
  · rintro ⟨i, hi, hc⟩
    refine (wait_timed_true_iff f n d 0).mpr ⟨i, hi, ?_⟩
    simp only [Nat.zero_add, waitCond, decide_eq_true_eq]
    simpa [pool_core.active_tasks, pool_core.pending_tasks] using hc

/-- Witness for C4: a pool stuck with one active task times out with false; a
drained pool returns true within the deadline. -/
theorem C4_witness :
    wait_timed
      (fun _ =>
        ({ queue := [], pending := 1, active := 0, running := [],
           shutdown := false, workers := 1 } : pool_core Nat))
      0 2 0 = false ∧
    wait_timed
      (fun _ =>
        ({ queue := [], pending := 0, active := 0, running := [],
           shutdown := false, workers := 1 } : pool_core Nat))
      0 2 0 = true :=
  ⟨(C4_wait_timed_spec
      (fun _ =>
        ({ queue := [], pending := 1, active := 0, running := [],
           shutdown := false, workers := 1 } : pool_core Nat))
      2 0).1 (fun _i _ => Nat.one_pos),
   (C4_wait_timed_spec
      (fun _ =>
        ({ queue := [], pending := 0, active := 0, running := [],
           shutdown := false, workers := 1 } : pool_core Nat))
      2 0).2 ⟨0, Nat.zero_le 2, Nat.le_refl 0⟩⟩

end Threadpool

namespace Threadpool

/-- C5: clear discards exactly the not-yet-started tasks — afterwards the
pending count is zero and the queue empty, the active count and the running
tasks are unchanged, and a discarded task t is never executed (no start event
in any subsequent trace without a fresh successful submission of t). -/
theorem C5_clear_spec {τ : Type} [DecidableEq τ] (pol : SchedPolicy τ) (hp : LawfulPolicy pol)
    (s : pool_core τ) (t : τ) (_ht : t ∈ s.queue) :
    s.clear.pending_tasks = 0 ∧
    s.clear.queue = [] ∧
    s.clear.active_tasks = s.active_tasks ∧
    s.clear.running = s.running ∧
    ∀ es s', Trace pol s.clear es s' → PoolEvent.submitOk t ∉ es →
      PoolEvent.start t ∉ es := by
  refine ⟨rfl, rfl, rfl, rfl, ?_⟩
  intro es s' htr hns
  exact trace_no_start hp htr t (by simp [pool_core.clear]) hns

/-- Witness for C5 at a concrete pool holding one pending and one running
task. -/
theorem C5_witness :
    pool_core.pending_tasks (pool_core.clear
      ({ queue := [5], pending := 1, active := 1, running := [9],
         shutdown := false, workers := 1 } : pool_core Nat)) = 0 ∧
    (pool_core.clear
      ({ queue := [5], pending := 1, active := 1, running := [9],
         shutdown := false, workers := 1 } : pool_core Nat)).running = [9] :=
  ⟨(C5_clear_spec (fifo_scheduler Nat) (fifo_lawful Nat)
      { queue := [5], pending := 1, active := 1, running := [9],
        shutdown := false, workers := 1 } 5 (by decide)).1,
   ((C5_clear_spec (fifo_scheduler Nat) (fifo_lawful Nat)
      { queue := [5], pending := 1, active := 1, running := [9],
        shutdown := false, workers := 1 } 5 (by decide)).2.2.2.1)⟩

/-- C6: with FIFO, submitting A then B with nothing drained in between yields
removal in arrival order (A popped before B); with LIFO removal is reverse
arrival order (B before A); the priority policy removes a highest-priority
task, and everything popped before it — hence every earlier arrival among its
ties — has strictly lower priority, a stable tie-break. -/
theorem C6_policy_order {τ : Type} (q : List τ) (A B : τ)
    (p : List prio_task) (u : prio_task) (p' : List prio_task)
    (h : prio_scheduler.pop p = some (u, p')) :
    drainPol (fifo_scheduler τ) (q.length + 2)
        ((fifo_scheduler τ).push ((fifo_scheduler τ).push q A) B) = q ++ [A, B] ∧
    drainPol (lifo_scheduler τ) (q.length + 2)
        ((lifo_scheduler τ).push ((lifo_scheduler τ).push q A) B) = B :: A :: q ∧
    (∀ v ∈ p, v.pri ≤ u.pri) ∧
    ∃ l₁ l₂, p = l₁ ++ u :: l₂ ∧ p' = l₁ ++ l₂ ∧ ∀ v ∈ l₁, v.pri < u.pri := by
  refine ⟨?_, ?_, ?_, ?_⟩
  · have h1 : (fifo_scheduler τ).push ((fifo_scheduler τ).push q A) B = q ++ [A, B] := by
      simp [fifo_scheduler]
    rw [h1, show q.length + 2 = (q ++ [A, B]).length by simp, drain_fifo]
  · have h1 : (lifo_scheduler τ).push ((lifo_scheduler τ).push q A) B = B :: A :: q := by
      simp [lifo_scheduler]
    rw [h1, show q.length + 2 = (B :: A :: q).length by simp, drain_lifo]
  · exact (prio_pop_spec p u p' h).1
  · exact (prio_pop_spec p u p' h).2

/-- Witness for C6 at concrete queues: two tasks behind a one-element backlog,
and a three-task priority queue with a tie on the maximal key. -/
theorem C6_witness :
    drainPol (fifo_scheduler Nat) 3
        ((fifo_scheduler Nat).push ((fifo_scheduler Nat).push [0] 1) 2) = [0, 1, 2] ∧
    drainPol (lifo_scheduler Nat) 3
        ((lifo_scheduler Nat).push ((lifo_scheduler Nat).push [0] 1) 2) = [2, 1, 0] ∧
    (∀ v ∈ [prio_task.mk 1 0, prio_task.mk 2 1, prio_task.mk 2 2],
      v.pri ≤ (prio_task.mk 2 1).pri) ∧
    ∃ l₁ l₂, [prio_task.mk 1 0, prio_task.mk 2 1, prio_task.mk 2 2]
        = l₁ ++ prio_task.mk 2 1 :: l₂ ∧
      [prio_task.mk 1 0, prio_task.mk 2 2] = l₁ ++ l₂ ∧
      ∀ v ∈ l₁, v.pri < (prio_task.mk 2 1).pri :=
  C6_policy_order [0] 1 2
    [prio_task.mk 1 0, prio_task.mk 2 1, prio_task.mk 2 2]
    (prio_task.mk 2 1) [prio_task.mk 1 0, prio_task.mk 2 2] rfl

/-- C7: a task whose execution raises a failure is handled entirely inside the
worker loop — the iteration yields the same pool state as for any other
outcome (so no failure information flows back through the pool), and the
worker-thread count never shrinks because of it. -/
theorem C7_task_failure_ignored {τ ε : Type} (pol : SchedPolicy τ)
    (run run' : τ → task_outcome ε) (s : pool_core τ) (t : τ) (e : ε)
    (_h : run t = task_outcome.thrown e) :
    worker_iteration pol run s = worker_iteration pol run' s ∧
    (worker_iteration pol run s).workers = s.workers ∧
    (worker_iteration pol run s).shutdown = s.shutdown := by
  have key : ∀ r : τ → task_outcome ε, worker_iteration pol r s =
      match pol.pop s.queue with
      | none => s
      | some (_, q') => { s with queue := q', pending := s.pending - 1 } := by
    intro r
    unfold worker_iteration
    cases hq : pol.pop s.queue with
    | none => rfl
    | some tq =>
      obtain ⟨t', q'⟩ := tq
      cases hrt : r t' <;> simp [hrt]
  refine ⟨by rw [key run, key run'], ?_, ?_⟩
  · rw [key run]
    cases pol.pop s.queue with
    | none => rfl
    | some tq => obtain ⟨t', q'⟩ := tq; rfl
  · rw [key run]
    cases pol.pop s.queue with
    | none => rfl
    | some tq => obtain ⟨t', q'⟩ := tq; rfl

/-- Witness for C7: a concretely throwing task leaves the same state as a
succeeding one and the worker count stays put. -/
theorem C7_witness :
    worker_iteration (fifo_scheduler Nat) (fun _ => task_outcome.thrown "boom")
        ({ queue := [3], pending := 1, active := 0, running := [],
           shutdown := false, workers := 2 } : pool_core Nat) =
      worker_iteration (fifo_scheduler Nat) (fun _ => (task_outcome.ok : task_outcome String))
        ({ queue := [3], pending := 1, active := 0, running := [],
           shutdown := false, workers := 2 } : pool_core Nat) ∧
    (worker_iteration (fifo_scheduler Nat) (fun _ => task_outcome.thrown "boom")
        ({ queue := [3], pending := 1, active := 0, running := [],
           shutdown := false, workers := 2 } : pool_core Nat)).workers = 2 :=
  ⟨(C7_task_failure_ignored (fifo_scheduler Nat) (fun _ => task_outcome.thrown "boom")
      (fun _ => task_outcome.ok)
      { queue := [3], pending := 1, active := 0, running := [],
        shutdown := false, workers := 2 } 3 "boom" rfl).1,
   (C7_task_failure_ignored (fifo_scheduler Nat) (fun _ => task_outcome.thrown "boom")
      (fun _ => task_outcome.ok)
      { queue := [3], pending := 1, active := 0, running := [],
        shutdown := false, workers := 2 } 3 "boom" rfl).2.1⟩

/-- C8: on every reachable pool state, empty() and pending_tasks() == 0 are
extensionally the same observation. -/
theorem C8_empty_iff_pending_zero {τ : Type} [DecidableEq τ] (pol : SchedPolicy τ)
    (hp : LawfulPolicy pol) (w : Nat) (es : List (PoolEvent τ)) (s : pool_core τ)
    (h : Trace pol
      { queue := [], pending := 0, active := 0, running := [],
        shutdown := false, workers := w } es s) :
    s.empty = true ↔ s.pending_tasks = 0 := by
  obtain ⟨h1, -⟩ := trace_preserves_inv hp h (by exact ⟨rfl, rfl⟩)
  simp only [pool_core.empty, pool_core.pending_tasks, h1]
  generalize s.queue = l
  cases l <;> simp

/-- Witness for C8 at the freshly constructed pool. -/
theorem C8_witness :
    pool_core.empty
      ({ queue := [], pending := 0, active := 0, running := [],
         shutdown := false, workers := 2 } : pool_core Nat) = true ↔
    pool_core.pending_tasks
      ({ queue := [], pending := 0, active := 0, running := [],
         shutdown := false, workers := 2 } : pool_core Nat) = 0 :=
  C8_empty_iff_pending_zero (fifo_scheduler Nat) (fifo_lawful Nat) 2 [] _ (Trace.nil _)

/-- C9: the runnable adaptor returns exactly the boolean of the pool's own
schedule call on the bound task; the bound task is equivalent to invoking
run() on the object; binding retains shared ownership (the pointee is the
same object and the strong count grows by one); and on acceptance the queued
task still holds that owning pointer. -/
theorem C9_schedule_runnable_spec {α ε : Type} (pol : SchedPolicy (bound_run_task α))
    (hp : LawfulPolicy pol) (s : pool_core (bound_run_task α)) (obj : shared_ptr α)
    (run : α → task_outcome ε) :
    (schedule_runnable pol s obj).1 = (pool_core.schedule pol s (bindRun obj)).1 ∧
    run_bound run (bindRun obj) = run obj.obj ∧
    (bindRun obj).owner.obj = obj.obj ∧
    (bindRun obj).owner.use_count = obj.use_count + 1 ∧
    (s.shutdown = false → bindRun obj ∈ (schedule_runnable pol s obj).2.queue) := by
  refine ⟨rfl, rfl, rfl, rfl, ?_⟩
  intro hs
  have hq : (schedule_runnable pol s obj).2.queue = pol.push s.queue (bindRun obj) := by
    simp [schedule_runnable, pool_core.schedule, hs]
  rw [hq]
  exact (hp.mem_push _ _ _).mpr (Or.inr rfl)

/-- Witness for C9 at a concrete live pool and a concretely owned object. -/
theorem C9_witness :
    (schedule_runnable (fifo_scheduler (bound_run_task Nat))
        ({ queue := [], pending := 0, active := 0, running := [],
           shutdown := false, workers := 1 } : pool_core (bound_run_task Nat))
        (shared_ptr.mk 9 1)).1 =
      (pool_core.schedule (fifo_scheduler (bound_run_task Nat))
        ({ queue := [], pending := 0, active := 0, running := [],
           shutdown := false, workers := 1 } : pool_core (bound_run_task Nat))
        (bindRun (shared_ptr.mk 9 1))).1 ∧
    (bindRun (shared_ptr.mk 9 1)).owner.use_count = 2 :=
  ⟨(C9_schedule_runnable_spec (fifo_scheduler (bound_run_task Nat))
      (fifo_lawful (bound_run_task Nat))
      { queue := [], pending := 0, active := 0, running := [],
        shutdown := false, workers := 1 }
      (shared_ptr.mk 9 1) (fun _ => (task_outcome.ok : task_outcome Unit))).1,
   (C9_schedule_runnable_spec (fifo_scheduler (bound_run_task Nat))
      (fifo_lawful (bound_run_task Nat))
      { queue := [], pending := 0, active := 0, running := [],
        shutdown := false, workers := 1 }
      (shared_ptr.mk 9 1) (fun _ => (task_outcome.ok : task_outcome Unit))).2.2.2.1⟩

end Threadpool

namespace PioneerNet

theorem lookup_store (l : List (uuid × session)) (sid : uuid) (s : session) :
    lookupSession (storeSession l sid s) sid = some s := by
  induction l with
  | nil => simp [storeSession, lookupSession]
  | cons p rest ih =>
    obtain ⟨k, v⟩ := p
    by_cases h : k = sid
    · simp [storeSession, h, lookupSession]
    · simp [storeSession, h, lookupSession, ih]

theorem lookup_mem (l : List (uuid × session)) (sid : uuid) (v : session) :
    lookupSession l sid = some v → (sid, v) ∈ l := by
  induction l with
  | nil => intro h; simp [lookupSession] at h
  | cons p rest ih =>
    obtain ⟨k, w⟩ := p
    intro h
    by_cases hk : k = sid
    · subst hk
      simp [lookupSession] at h
      subst h
      exact List.mem_cons_self _ _
    · simp [lookupSession, hk] at h
      exact List.mem_cons_of_mem _ (ih h)

/-- C10: building a request registers a session under exactly the extracted
session id when none exists yet, always returns the non-null request of the
session carrying that id, and an immediately subsequent lookup of the id
yields that session rather than an absent result. -/
theorem C10_build_request_spec (m : session_manager) (src : String) (data : rpc_message)
    (hkeys : ∀ p ∈ m.sessions, (p.2).id = p.1) :
    (m.build_request src data).1 ≠ none ∧
    (∃ s, (m.build_request src data).2.get (get_session_id data) = some s ∧
      s.id = get_session_id data ∧ s.request = (m.build_request src data).1) ∧
    (m.get (get_session_id data) = none →
      (m.build_request src data).2.get (get_session_id data) =
        some (session.build_request { id := get_session_id data, req := none } data src)) := by
  simp only [session_manager.build_request, session_manager.get]
  cases hl : lookupSession m.sessions (get_session_id data) with
  | none =>
    refine ⟨by simp [session.build_request, session.request], ?_, ?_⟩
    · exact ⟨session.build_request { id := get_session_id data, req := none } data src,
        by simp [session_manager.get, lookup_store], rfl, rfl⟩
    · intro _
      simp [session_manager.get, lookup_store]
  | some s0 =>
    have hid : s0.id = get_session_id data :=
      hkeys (get_session_id data, s0) (lookup_mem m.sessions (get_session_id data) s0 hl)
    refine ⟨by simp [session.build_request, session.request], ?_, ?_⟩
    · exact ⟨session.build_request s0 data src,
        by simp [session_manager.get, lookup_store],
        by simp [session.build_request, hid], rfl⟩
    · intro hg
      simp at hg

/-- Witness for C10 on an empty registry and a concrete message carrying
session id 7. -/
theorem C10_witness :
    (session_manager.build_request { sessions := [] } "10.0.0.1:9000"
      { sid := 7, payload := "ping" }).1 ≠ none ∧
    (∃ s, (session_manager.build_request { sessions := [] } "10.0.0.1:9000"
        { sid := 7, payload := "ping" }).2.get
        (get_session_id { sid := 7, payload := "ping" }) = some s ∧
      s.id = get_session_id { sid := 7, payload := "ping" } ∧
      s.request = (session_manager.build_request { sessions := [] } "10.0.0.1:9000"
        { sid := 7, payload := "ping" }).1) ∧
    (session_manager.get { sessions := [] }
        (get_session_id { sid := 7, payload := "ping" }) = none →
      (session_manager.build_request { sessions := [] } "10.0.0.1:9000"
        { sid := 7, payload := "ping" }).2.get
        (get_session_id { sid := 7, payload := "ping" }) =
        some (session.build_request
          { id := get_session_id { sid := 7, payload := "ping" }, req := none }
          { sid := 7, payload := "ping" } "10.0.0.1:9000")) :=
  C10_build_request_spec { sessions := [] } "10.0.0.1:9000" { sid := 7, payload := "ping" }
    (fun p hp => absurd hp (List.not_mem_nil p))

end PioneerNet
